import Mathlib

/-!
# Verification of the GitHub workflow analyzer core

Shallow embedding of the repository's analysis engine:

* `src/github_client.py` — the trigger classifier
  (`GitHubClient._analyze_workflow_triggers`) and the `WorkflowRun` record.
* `src/analyzer.py` — the `WorkflowAnalyzer` class: `analyze_workflows`,
  `filter_problematic_workflows`, `get_repository_summary`,
  `get_trend_analysis`, `get_workflow_patterns`,
  `_calculate_days_span`, `_analyze_workflow_triggers`,
  `_determine_optimization_priority`.

Modelling conventions:

* Python floats are modelled as exact rationals `ℚ` (the spec reads the
  scoring formulas as real arithmetic, "deterministic given fixed
  floating-point semantics").
* Python timestamps (`datetime`) are modelled as rationals measured in
  days: `.date()` is `Int.floor`, `.hour` is the hour extracted from the
  fractional part, and subtracting two dates yields the day difference.
* The per-run `trigger_analysis` Python dict is mutable and shared between
  run records, so dicts live on an explicit heap (`Heap`), run records
  hold an address (`Option Nat`), and `dict.copy()` is a fresh
  allocation.  A dict itself is an insertion-ordered association list.
* Python `try/except` blocks are modelled with `Except Unit`; an
  operation that can raise (`yaml.safe_load`, `'on' in x`, `x['on']`)
  returns `Except`.
* `yaml.safe_load` is an external library call; it is a parameter
  (`parse : String → Except Unit Yaml`) of the classifier.  Concrete
  instantiations in counterexamples and witnesses mirror PyYAML's actual
  behaviour on the concrete document, which is documented at each site.
-/

namespace GWA

/-- A parsed YAML value, as produced by `yaml.safe_load`. -/
inductive Yaml where
  | ynull : Yaml
  | ybool : Bool → Yaml
  | ynum : Int → Yaml
  | ystr : String → Yaml
  | ylist : List Yaml → Yaml
  | ymap : List (Yaml × Yaml) → Yaml

/-- A Python value stored in a trigger-analysis dict. -/
inductive PVal where
  | pbool : Bool → PVal
  | pnum : ℚ → PVal
  | plist : List Yaml → PVal

/-- A Python dict with string keys: an insertion-ordered association list. -/
abbrev TrigDict := List (String × PVal)

/-- First-match lookup, i.e. Python `d[k]` / `d.get(k)` value retrieval. -/
def dGet (d : TrigDict) (k : String) : Option PVal :=
  match d with
  | [] => none
  | (k', v) :: t => if k' = k then some v else dGet t k

/-- Python `d[k] = v`: replace the value in place if the key exists
(insertion order is preserved), otherwise append the new key. -/
def dSet (d : TrigDict) (k : String) (v : PVal) : TrigDict :=
  match d with
  | [] => [(k, v)]
  | (k', v') :: t => if k' = k then (k, v) :: t else (k', v') :: dSet t k v

/-- Python truthiness of a stored value. -/
def truthy : PVal → Bool
  | .pbool b => b
  | .pnum q => decide (q ≠ 0)
  | .plist l => !l.isEmpty

/-- Truthiness of `d.get(k, False)`.  Also used for the analyzer's direct
`d[k]` reads in boolean position: there Python would raise `KeyError` on a
missing key, which cannot happen for the profiles this program constructs
(they always carry the key), so the defaulted read coincides. -/
def dTruthy (d : TrigDict) (k : String) : Bool :=
  match dGet d k with
  | some v => truthy v
  | none => false

/-- Numeric reading of `d.get(k, 0)` / `d[k]` in arithmetic position.
Python treats `bool` as the integers 0/1; a list in arithmetic position
would raise, which never happens for the dicts this program constructs. -/
def dNum (d : TrigDict) (k : String) : ℚ :=
  match dGet d k with
  | some (.pnum q) => q
  | some (.pbool b) => if b then 1 else 0
  | some (.plist _) => 0
  | none => 0

/-- `a` occurs at the start of `b` (over character lists). -/
def startsWithL (a b : List Char) : Bool :=
  match a, b with
  | [], _ => true
  | _ :: _, [] => false
  | x :: xs, y :: ys => x = y && startsWithL xs ys

/-- `needle` occurs contiguously inside `hay` (over character lists). -/
def containsSubL (needle hay : List Char) : Bool :=
  match hay with
  | [] => needle.isEmpty
  | _ :: t => startsWithL needle hay || containsSubL needle t

/-- Python `needle in hay` on strings: substring containment. -/
def pySubstr (needle hay : String) : Bool :=
  containsSubL needle.data hay.data

/-- Python `s.lower()`: lowercase every character. -/
def pyLower (s : String) : String :=
  ⟨s.data.map Char.toLower⟩

/-- The apostrophe character used by Python `repr` of a string. -/
def pyQuote : String := String.singleton (Char.ofNat 39)

mutual

/-- Python `repr` of a parsed YAML value (used by `str` for containers);
`pyReprItems` and `pyReprPairs` render comma-separated list and dict
bodies. -/
def pyRepr : Yaml → String
  | .ynull => "None"
  | .ybool b => if b then "True" else "False"
  | .ynum n => toString n
  | .ystr s => pyQuote ++ s ++ pyQuote
  | .ylist l => "[" ++ pyReprItems l ++ "]"
  | .ymap es => "\x7b" ++ pyReprPairs es ++ "\x7d"

def pyReprItems : List Yaml → String
  | [] => ""
  | [x] => pyRepr x
  | x :: y :: t => pyRepr x ++ ", " ++ pyReprItems (y :: t)

def pyReprPairs : List (Yaml × Yaml) → String
  | [] => ""
  | [(k, v)] => pyRepr k ++ ": " ++ pyRepr v
  | (k, v) :: p :: t => pyRepr k ++ ": " ++ pyRepr v ++ ", " ++ pyReprPairs (p :: t)

end

/-- Python `str` of a parsed YAML value: the string itself for strings,
`repr` otherwise. -/
def pyStr : Yaml → String
  | .ystr s => s
  | v => pyRepr v

/-- Is this YAML value equal (under Python `==`) to the string `s`?
A PyYAML boolean or number never equals a Python string. -/
def yamlIsStr (v : Yaml) (s : String) : Bool :=
  match v with
  | .ystr s' => s' = s
  | _ => false

/-- Python `k in workflow_data` for a string `k`: substring test on a
string, element test on a list, key test on a dict; a `TypeError` is
raised (modelled as `Except.error`) on `None`, booleans and numbers. -/
def pyContains (wd : Yaml) (k : String) : Except Unit Bool :=
  match wd with
  | .ystr s => .ok (pySubstr k s)
  | .ylist l => .ok (l.any (yamlIsStr · k))
  | .ymap es => .ok (es.any (yamlIsStr ·.1 k))
  | _ => .error ()

/-- Python `workflow_data[k]` for a string `k`: dict lookup (`KeyError`
when absent); a `TypeError` on strings, lists and scalars. -/
def pyIndex (wd : Yaml) (k : String) : Except Unit Yaml :=
  match wd with
  | .ymap es =>
    match es.find? (yamlIsStr ·.1 k) with
    | some e => .ok e.2
    | none => .error ()
  | _ => .error ()

/-!
## Trigger Classifier — `GitHubClient._analyze_workflow_triggers`
(`src/github_client.py`, lines 212-276)
-/

/-- The initial `analysis` dict literal (`github_client.py` lines 214-221). -/
def initialGCAnalysis : TrigDict :=
  [("is_pr_triggered", .pbool false),
   ("is_push_triggered", .pbool false),
   ("is_schedule_triggered", .pbool false),
   ("is_manual_triggered", .pbool false),
   ("trigger_frequency_score", .pnum 0),
   ("raw_triggers", .plist [])]

/-- One iteration of the `for trigger in triggers` loop
(`github_client.py` lines 246-261): case-insensitive substring matching
of `str(trigger).lower()` against the four trigger keywords.  Note the
four `if`s are independent (not `elif`), each operating on the dict as
updated by the previous one. -/
def gcClassifyOne (analysis : TrigDict) (trigger : Yaml) : TrigDict :=
  let s := pyLower (pyStr trigger)
  let analysis :=
    if pySubstr "pull_request" s then
      let a := dSet analysis "is_pr_triggered" (.pbool true)
      dSet a "trigger_frequency_score" (.pnum (dNum a "trigger_frequency_score" + 3))
    else analysis
  let analysis :=
    if pySubstr "push" s then
      let a := dSet analysis "is_push_triggered" (.pbool true)
      dSet a "trigger_frequency_score" (.pnum (dNum a "trigger_frequency_score" + 2))
    else analysis
  let analysis :=
    if pySubstr "schedule" s then
      let a := dSet analysis "is_schedule_triggered" (.pbool true)
      dSet a "trigger_frequency_score" (.pnum (dNum a "trigger_frequency_score" + 1))
    else analysis
  if pySubstr "workflow_dispatch" s then
    dSet analysis "is_manual_triggered" (.pbool true)
  else analysis

/-- The `try` block of `GitHubClient._analyze_workflow_triggers`
(`github_client.py` lines 226-261).  `parse` stands for the external
`yaml.safe_load`; the raised/`Except.error` cases are: a YAML parse
error, a `TypeError` from `'on' in workflow_data`, and a `TypeError`
from `workflow_data['on']`.  No dict mutation happens before any raise
point, so the handler always starts from the pristine initial dict. -/
def gcTryBlock (parse : String → Except Unit Yaml) (content : String) :
    Except Unit TrigDict := do
  let workflow_data ← parse content
  let hasOn ← pyContains workflow_data "on"
  if hasOn then
    let triggersRaw ← pyIndex workflow_data "on"
    let triggers : List Yaml :=
      match triggersRaw with
      | .ystr s => [.ystr s]
      | .ymap es => es.map (·.1)
      | .ylist l => l
      | _ => []
    let analysis := dSet initialGCAnalysis "raw_triggers" (.plist triggers)
    return triggers.foldl gcClassifyOne analysis
  else
    return initialGCAnalysis

/-- The `except` handler (`github_client.py` lines 263-274): plain
case-insensitive substring search of the raw text for three keyword
groups (`workflow_dispatch` is not searched here). -/
def gcTextFallback (content : String) : TrigDict :=
  let content_lower := pyLower content
  let analysis := initialGCAnalysis
  let analysis :=
    if pySubstr "pull_request" content_lower then
      let a := dSet analysis "is_pr_triggered" (.pbool true)
      dSet a "trigger_frequency_score" (.pnum (dNum a "trigger_frequency_score" + 3))
    else analysis
  let analysis :=
    if pySubstr "push" content_lower then
      let a := dSet analysis "is_push_triggered" (.pbool true)
      dSet a "trigger_frequency_score" (.pnum (dNum a "trigger_frequency_score" + 2))
    else analysis
  if pySubstr "schedule" content_lower then
    let a := dSet analysis "is_schedule_triggered" (.pbool true)
    dSet a "trigger_frequency_score" (.pnum (dNum a "trigger_frequency_score" + 1))
  else analysis

/-- `GitHubClient._analyze_workflow_triggers` (`github_client.py` lines
212-276).  `if not content` covers both `None` and the empty string. -/
def analyzeWorkflowTriggersGC (parse : String → Except Unit Yaml)
    (content : Option String) : TrigDict :=
  match content with
  | none => initialGCAnalysis
  | some c =>
    if c = "" then initialGCAnalysis
    else
      match gcTryBlock parse c with
      | .ok analysis => analysis
      | .error _ => gcTextFallback c

/-!
## Data model — `WorkflowRun` (`src/github_client.py`, lines 9-23) and
the heap of shared mutable trigger-analysis dicts
-/

/-- `WorkflowRun` dataclass.  Timestamps are rationals measured in days
(see the header).  `trigger_analysis` holds the address of a shared
mutable dict on the heap, or `none` for Python `None` (the dataclass
default). -/
structure Run where
  id : ℤ
  name : String
  status : String
  conclusion : String
  duration_seconds : ℤ
  created_at : ℚ
  updated_at : ℚ
  repository : String
  workflow_name : String
  event : String
  branch : String
  workflow_content : Option String := none
  trigger_analysis : Option Nat := none
  deriving DecidableEq

/-- The store of trigger-analysis dicts; addresses are list indices. -/
abbrev Heap := List TrigDict

/-- Dereference an address (addresses used by the program are always
in bounds; the default is junk). -/
def hRead (h : Heap) (a : Nat) : TrigDict := h.getD a []

/-- Write through an address. -/
def hWrite (h : Heap) (a : Nat) (d : TrigDict) : Heap := h.set a d

/-- Allocate a fresh dict (Python dict literal or `dict.copy()`),
returning the extended heap and the fresh address. -/
def hAlloc (h : Heap) (d : TrigDict) : Heap × Nat := (h ++ [d], h.length)

/-- `run.created_at.date()`: the calendar day of a timestamp. -/
def pyDate (r : Run) : ℤ := ⌊r.created_at⌋

/-- `run.created_at.hour`: the hour-of-day of a timestamp. -/
def pyHour (r : Run) : ℤ := ⌊(r.created_at - ⌊r.created_at⌋) * 24⌋

/-- Python `max` of a list (raises on `[]`; every call site below is
guarded, so the `junk` default is unreachable there). -/
def pyMax {α : Type} [LinearOrder α] (junk : α) : List α → α
  | [] => junk
  | x :: t => t.foldl max x

/-- Python `min` of a list (same convention as `pyMax`). -/
def pyMin {α : Type} [LinearOrder α] (junk : α) : List α → α
  | [] => junk
  | x :: t => t.foldl min x

/-- Stable insertion of `x` into a descending-by-key list: `x` goes
after every element whose key is `≥ key x`, which is how Python's stable
`sorted(..., reverse=True)` orders ties. -/
def insertDesc {α : Type} (key : α → ℚ) (x : α) : List α → List α
  | [] => [x]
  | y :: t => if key y < key x then x :: y :: t else y :: insertDesc key x t

/-- Python `sorted(l, key=key, reverse=True)`: stable descending sort. -/
def sortByDesc {α : Type} (key : α → ℚ) (l : List α) : List α :=
  l.foldr (insertDesc key) []

/-- Stable insertion for an ascending sort of integer keys. -/
def insertAscZ {α : Type} (key : α → ℤ) (x : α) : List α → List α
  | [] => [x]
  | y :: t => if key x < key y then x :: y :: t else y :: insertAscZ key x t

/-- Python `sorted(l)` for integer-keyed data: stable ascending sort. -/
def sortByAscZ {α : Type} (key : α → ℤ) (l : List α) : List α :=
  l.foldr (insertAscZ key) []

/-- Python `list(set(xs))` for strings: the distinct elements.  CPython's
set iteration order is hash-dependent but fixed within a process; the
model fixes it to first-occurrence order. -/
def pySetList (xs : List String) : List String :=
  xs.foldl (fun acc e => if e ∈ acc then acc else acc ++ [e]) []

/-- `defaultdict(list)` update `d[k].append(v)`: append to the keyed list,
creating the key at the end on first access (insertion order). -/
def addToMulti {κ ν : Type} [DecidableEq κ] (gs : List (κ × List ν)) (k : κ) (v : ν) :
    List (κ × List ν) :=
  match gs with
  | [] => [(k, [v])]
  | (k', vs) :: t => if k' = k then (k', vs ++ [v]) :: t else (k', vs) :: addToMulti t k v

/-- `Counter` update `c[k] += 1`. -/
def counterAdd {κ : Type} [DecidableEq κ] (c : List (κ × ℕ)) (k : κ) : List (κ × ℕ) :=
  match c with
  | [] => [(k, 1)]
  | (k', n) :: t => if k' = k then (k', n + 1) :: t else (k', n) :: counterAdd t k

/-!
## `WorkflowAnalyzer` — `src/analyzer.py`
-/

/-- `WorkflowStats` dataclass (`analyzer.py` lines 8-27). -/
structure WorkflowStats where
  workflow_name : String
  repository : String
  total_runs : ℕ
  avg_duration_minutes : ℚ
  max_duration_minutes : ℚ
  min_duration_minutes : ℚ
  success_rate : ℚ
  frequency_score : ℚ
  duration_score : ℚ
  combined_score : ℚ
  trigger_events : List String
  recent_runs : List Run
  is_pr_triggered : Bool := false
  is_push_triggered : Bool := false
  is_high_frequency_trigger : Bool := false
  trigger_frequency_score : ℚ := 0
  optimization_priority : String := "low"
  deriving DecidableEq

/-- The dict literal returned by `WorkflowAnalyzer._analyze_workflow_triggers`
for an empty run list (`analyzer.py` lines 216-222); note it is returned
early, before the `is_high_frequency_trigger` computation. -/
def analyzerEmptyRunsDict : TrigDict :=
  [("is_pr_triggered", .pbool false),
   ("is_push_triggered", .pbool false),
   ("is_high_frequency_trigger", .pbool false),
   ("trigger_frequency_score", .pnum 0)]

/-- The event-string fallback dict (`analyzer.py` lines 229-240): built
from the raw `event` strings of all the group's runs by substring search,
then given its score contributions. -/
def analyzerFallbackDict (runs : List Run) : TrigDict :=
  let events := runs.map (·.event)
  let analysis : TrigDict :=
    [("is_pr_triggered", .pbool (events.any (fun e => pySubstr "pull_request" e))),
     ("is_push_triggered", .pbool (events.any (fun e => pySubstr "push" e))),
     ("trigger_frequency_score", .pnum 0)]
  let analysis :=
    if dTruthy analysis "is_pr_triggered" then
      dSet analysis "trigger_frequency_score"
        (.pnum (dNum analysis "trigger_frequency_score" + 3))
    else analysis
  if dTruthy analysis "is_push_triggered" then
    dSet analysis "trigger_frequency_score"
      (.pnum (dNum analysis "trigger_frequency_score" + 2))
  else analysis

/-- `WorkflowAnalyzer._analyze_workflow_triggers` (`analyzer.py` lines
214-248), heap-passing: returns the address of the `analysis` dict.
The attached profile of the first run is used when it is a non-empty
dict (Python truthiness of `first_run.trigger_analysis`; `hasattr` is
always true for a dataclass field); `.copy()` and the dict literals are
fresh allocations, and the `is_high_frequency_trigger` entry is then
written through the fresh address. -/
def analyzeWorkflowTriggersH (h : Heap) (runs : List Run) : Nat × Heap :=
  match runs with
  | [] =>
    let (h1, a) := hAlloc h analyzerEmptyRunsDict
    (a, h1)
  | first_run :: _ =>
    let base : TrigDict :=
      match first_run.trigger_analysis with
      | some addr =>
        if !(hRead h addr).isEmpty then hRead h addr else analyzerFallbackDict runs
      | none => analyzerFallbackDict runs
    let (h1, a) := hAlloc h base
    let analysis := hRead h1 a
    let hf := decide (dNum analysis "trigger_frequency_score" ≥ 3)
      || decide (runs.length > 10)
    (a, hWrite h1 a (dSet analysis "is_high_frequency_trigger" (.pbool hf)))

/-- The dict value that `analyzeWorkflowTriggersH` leaves at the returned
address, as a pure function of the pre-call heap (proved as
`analyzeWorkflowTriggersH_read` below; used to state heap-independence). -/
def triggerDictResult (h : Heap) (runs : List Run) : TrigDict :=
  match runs with
  | [] => analyzerEmptyRunsDict
  | first_run :: _ =>
    let base : TrigDict :=
      match first_run.trigger_analysis with
      | some addr =>
        if !(hRead h addr).isEmpty then hRead h addr else analyzerFallbackDict runs
      | none => analyzerFallbackDict runs
    dSet base "is_high_frequency_trigger"
      (.pbool (decide (dNum base "trigger_frequency_score" ≥ 3)
        || decide (runs.length > 10)))

/-- `WorkflowAnalyzer._determine_optimization_priority` (`analyzer.py`
lines 250-275): the top-to-bottom decision chain. -/
def determineOptimizationPriority (thr avg_duration frequency_score : ℚ)
    (trigger_analysis : TrigDict) : String :=
  if dTruthy trigger_analysis "is_pr_triggered" ∧ avg_duration > thr * 2 then
    "critical"
  else if (dTruthy trigger_analysis "is_pr_triggered"
      ∨ dTruthy trigger_analysis "is_push_triggered") ∧ avg_duration > thr then
    "high"
  else if frequency_score > 10 then
    "high"
  else if avg_duration > thr then
    "medium"
  else if frequency_score > 5 then
    "medium"
  else
    "low"

/-- `WorkflowAnalyzer._calculate_days_span` (`analyzer.py` lines 181-190). -/
def calculateDaysSpan (runs : List Run) : ℤ :=
  if runs.isEmpty then 1
  else
    let dates := runs.map pyDate
    max (pyMax 0 dates - pyMin 0 dates) 1

/-- The per-group body of the `analyze_workflows` loop (`analyzer.py`
lines 49-109), as a function of the group's trigger-analysis dict. -/
def computeStat (thr : ℚ) (trigger_analysis : TrigDict)
    (repo workflow_name : String) (workflow_runs : List Run) : WorkflowStats :=
  let durations_minutes := workflow_runs.map (fun r => (r.duration_seconds : ℚ) / 60)
  let avg_duration := durations_minutes.sum / (durations_minutes.length : ℚ)
  let max_duration := pyMax 0 durations_minutes
  let min_duration := pyMin 0 durations_minutes
  let days_span := calculateDaysSpan workflow_runs
  let frequency_score := (workflow_runs.length : ℚ) / ((max days_span 1 : ℤ) : ℚ)
  let is_pr := dTruthy trigger_analysis "is_pr_triggered"
  let is_push := dTruthy trigger_analysis "is_push_triggered"
  let enhanced_frequency_score :=
    if is_pr || is_push then frequency_score * (3 / 2) else frequency_score
  let duration_score := max 0 (avg_duration - thr)
  let trigger_multiplier : ℚ :=
    if is_pr ∧ avg_duration > thr then 13 / 10
    else if is_push ∧ avg_duration > thr then 12 / 10
    else 1
  let combined_score :=
    (duration_score * (6 / 10) + enhanced_frequency_score * (4 / 10)) * trigger_multiplier
  let optimization_priority :=
    determineOptimizationPriority thr avg_duration enhanced_frequency_score trigger_analysis
  let events := pySetList (workflow_runs.map (·.event))
  let recent_runs := (sortByDesc (·.created_at) workflow_runs).take 10
  { workflow_name := workflow_name
    repository := repo
    total_runs := workflow_runs.length
    avg_duration_minutes := avg_duration
    max_duration_minutes := max_duration
    min_duration_minutes := min_duration
    success_rate := 100
    frequency_score := enhanced_frequency_score
    duration_score := duration_score
    combined_score := combined_score
    trigger_events := events
    recent_runs := recent_runs
    is_pr_triggered := is_pr
    is_push_triggered := is_push
    is_high_frequency_trigger := dTruthy trigger_analysis "is_high_frequency_trigger"
    trigger_frequency_score := dNum trigger_analysis "trigger_frequency_score"
    optimization_priority := optimization_priority }

/-- The grouping key `(run.repository, run.workflow_name)`. -/
def runKey (r : Run) : String × String := (r.repository, r.workflow_name)

/-- The `workflow_groups` defaultdict (`analyzer.py` lines 37-41):
insertion-ordered groups of runs keyed by `(repository, workflow_name)`. -/
def workflowGroups (runs : List Run) : List ((String × String) × List Run) :=
  runs.foldl (fun gs r => addToMulti gs (runKey r) r) []

/-- The main loop of `analyze_workflows` (`analyzer.py` lines 43-111)
over the already-built groups, heap-passing. -/
def analyzeGroupsH (thr : ℚ) (h : Heap) :
    List ((String × String) × List Run) → List WorkflowStats × Heap
  | [] => ([], h)
  | ((repo, workflow_name), workflow_runs) :: gs =>
    if workflow_runs.length = 0 then analyzeGroupsH thr h gs
    else
      let (a, h1) := analyzeWorkflowTriggersH h workflow_runs
      let stat := computeStat thr (hRead h1 a) repo workflow_name workflow_runs
      let (rest, h2) := analyzeGroupsH thr h1 gs
      (stat :: rest, h2)

/-- `WorkflowAnalyzer.analyze_workflows` (`analyzer.py` lines 34-114):
group, analyze each group, sort by combined score descending. -/
def analyzeWorkflowsH (thr : ℚ) (h : Heap) (runs : List Run) :
    List WorkflowStats × Heap :=
  let (stats, h') := analyzeGroupsH thr h (workflowGroups runs)
  (sortByDesc (·.combined_score) stats, h')

/-- `WorkflowAnalyzer.filter_problematic_workflows` (`analyzer.py` lines
116-122). -/
def filterProblematicWorkflows (thr : ℚ) (stats : List WorkflowStats) :
    List WorkflowStats :=
  stats.filter (fun stat =>
    decide (stat.avg_duration_minutes > thr) || decide (stat.frequency_score > 5))

/-- The per-repository rollup dict of `get_repository_summary`
(`analyzer.py` lines 126-132). -/
structure RepoRollup where
  total_workflows : ℕ := 0
  problematic_workflows : ℕ := 0
  avg_duration : ℚ := 0
  total_runs : ℕ := 0
  workflows : List WorkflowStats := []
  deriving DecidableEq

/-- One iteration of the rollup loop (`analyzer.py` lines 134-142). -/
def updateRollup (thr : ℚ) (d : RepoRollup) (stat : WorkflowStats) : RepoRollup :=
  let d := { d with
    total_workflows := d.total_workflows + 1
    total_runs := d.total_runs + stat.total_runs
    workflows := d.workflows ++ [stat] }
  if stat.avg_duration_minutes > thr ∨ stat.frequency_score > 5 then
    { d with problematic_workflows := d.problematic_workflows + 1 }
  else d

/-- `repo_stats[stat.repository]` update on the insertion-ordered
defaultdict. -/
def addStatToSummary (thr : ℚ) (acc : List (String × RepoRollup))
    (stat : WorkflowStats) : List (String × RepoRollup) :=
  match acc with
  | [] => [(stat.repository, updateRollup thr {} stat)]
  | (repo, d) :: t =>
    if repo = stat.repository then (repo, updateRollup thr d stat) :: t
    else (repo, d) :: addStatToSummary thr t stat

/-- `WorkflowAnalyzer.get_repository_summary` (`analyzer.py` lines
124-149): accumulate rollups, then fill in each repository's average
duration. -/
def getRepositorySummary (thr : ℚ) (stats : List WorkflowStats) :
    List (String × RepoRollup) :=
  let repo_stats := stats.foldl (addStatToSummary thr) []
  repo_stats.map (fun (repo, data) =>
    if !data.workflows.isEmpty then
      (repo, { data with avg_duration :=
        (data.workflows.map (·.avg_duration_minutes)).sum / (data.workflows.length : ℚ) })
    else (repo, data))

/-- One day's entry of the trend series (`analyzer.py` lines 166-172). -/
structure TrendDay where
  date : ℤ
  runs_count : ℕ
  avg_duration_minutes : ℚ
  max_duration_minutes : ℚ
  workflows : ℕ
  deriving DecidableEq

/-- The result dict of `get_trend_analysis` (`analyzer.py` lines 174-179). -/
structure TrendAnalysis where
  daily_trends : List TrendDay
  total_analysis_days : ℤ
  total_runs : ℕ
  total_workflows : ℕ
  deriving DecidableEq

/-- `WorkflowAnalyzer.get_trend_analysis` (`analyzer.py` lines 151-179):
bucket runs by calendar day, emit per-day statistics for the days
present, ascending by date. -/
def getTrendAnalysis (runs : List Run) (days : ℤ) : TrendAnalysis :=
  let daily_runs := runs.foldl (fun acc r => addToMulti acc (pyDate r) r) []
  let trend_data := (sortByAscZ (·.1) daily_runs).map (fun (day, druns) =>
    let durs := druns.map (fun r => (r.duration_seconds : ℚ) / 60)
    { date := day
      runs_count := druns.length
      avg_duration_minutes := durs.sum / (durs.length : ℚ)
      max_duration_minutes := pyMax 0 durs
      workflows := (pySetList (druns.map (·.workflow_name))).length : TrendDay })
  { daily_trends := trend_data
    total_analysis_days := days
    total_runs := runs.length
    total_workflows := (pySetList (runs.map (·.workflow_name))).length }

/-- The result dict of `get_workflow_patterns` (`analyzer.py` lines
208-212). -/
structure PatternsResult where
  trigger_events : List (String × ℕ)
  hourly_patterns : List (ℤ × ℚ)
  peak_hours : List (ℤ × ℚ)
  deriving DecidableEq

/-- `WorkflowAnalyzer.get_workflow_patterns` (`analyzer.py` lines
192-212): tabulate events and per-hour durations over each statistic's
`recent_runs`, then average per hour and take the top five hours. -/
def getWorkflowPatterns (stats : List WorkflowStats) : PatternsResult :=
  let step := fun (acc : List (String × ℕ) × List (ℤ × List ℚ)) (r : Run) =>
    (counterAdd acc.1 r.event,
     addToMulti acc.2 (pyHour r) ((r.duration_seconds : ℚ) / 60))
  let tabulated := stats.foldl (fun acc s => s.recent_runs.foldl step acc) ([], [])
  let hourly_avg := tabulated.2.map (fun (hr, durations) =>
    (hr, durations.sum / (durations.length : ℚ)))
  { trigger_events := tabulated.1
    hourly_patterns := hourly_avg
    peak_hours := (sortByDesc (·.2) hourly_avg).take 5 }

/-- The sum of the per-repository `total_workflows` counters of a
repository summary. -/
def sumTotalWorkflows (summary : List (String × RepoRollup)) : ℕ :=
  (summary.map (fun p => p.2.total_workflows)).sum

/-- Heap-free rendering of the per-group loop: each group's statistic is
computed from `triggerDictResult` of the heap as it stood *before* the
call.  Proved equal to `analyzeGroupsH` (under address validity) in
`analyzeGroupsH_eq_pure`; used to state heap-independence. -/
def analyzeGroupsP (thr : ℚ) (h : Heap) :
    List ((String × String) × List Run) → List WorkflowStats
  | [] => []
  | ((repo, workflow_name), workflow_runs) :: gs =>
    if workflow_runs.length = 0 then analyzeGroupsP thr h gs
    else computeStat thr (triggerDictResult h workflow_runs) repo workflow_name
        workflow_runs :: analyzeGroupsP thr h gs

/-- The (dereferenced) trigger profile attached to the first run of a
group, if any: the value `first_run.trigger_analysis` denotes. -/
def firstProfile (h : Heap) (rs : List Run) : Option TrigDict :=
  match rs with
  | [] => none
  | first_run :: _ => first_run.trigger_analysis.map (hRead h)

/-!
## Concrete sample inputs (used by witnesses and counterexamples)
-/

/-- A 30-minute successful push-triggered run with no attached profile. -/
def pushRun : Run where
  id := 1
  name := "build"
  status := "completed"
  conclusion := "success"
  duration_seconds := 1800
  created_at := 100
  updated_at := 100 + 1800 / 86400
  repository := "org/a"
  workflow_name := "build"
  event := "push"
  branch := "main"

/-- The statistic `analyze_workflows` produces for the group `[pushRun]`
at threshold 10 (membership is checked by evaluation in the witnesses). -/
def pushStat : WorkflowStats :=
  computeStat 10 (triggerDictResult [] [pushRun]) "org/a" "build" [pushRun]

/-- A 25-minute successful pull-request-triggered run. -/
def prRun : Run where
  id := 2
  name := "ci"
  status := "completed"
  conclusion := "success"
  duration_seconds := 1500
  created_at := 200
  updated_at := 200 + 1500 / 86400
  repository := "org/b"
  workflow_name := "ci"
  event := "pull_request"
  branch := "main"

/-- The statistic `analyze_workflows` produces for the group `[prRun]`
at threshold 10. -/
def prStat : WorkflowStats :=
  computeStat 10 (triggerDictResult [] [prRun]) "org/b" "ci" [prRun]

/-- A trigger profile as the client attaches it for `on: pull_request`. -/
def attachedDict : TrigDict :=
  [("is_pr_triggered", .pbool true),
   ("is_push_triggered", .pbool false),
   ("is_schedule_triggered", .pbool false),
   ("is_manual_triggered", .pbool false),
   ("trigger_frequency_score", .pnum 3),
   ("raw_triggers", .plist [.ystr "pull_request"])]

/-- A second, differently-shaped profile (for exercising later runs of a
group that carry their own attached profile). -/
def junkDict : TrigDict := [("is_push_triggered", .pbool true)]

/-- A heap holding `attachedDict` at address 0 and `junkDict` at 1. -/
def heap1 : Heap := [attachedDict, junkDict]

/-- `prRun` with the profile at address 0 attached. -/
def attachedRun : Run := { prRun with id := 3, trigger_analysis := some 0 }

/-- A later run of the same group carrying its own (different) attached
profile. -/
def laterRun : Run := { pushRun with
  id := 4
  repository := "org/b"
  workflow_name := "ci"
  event := "pull_request"
  trigger_analysis := some 1 }

/-- The same later run with no attached profile. -/
def laterRunNoProfile : Run := { laterRun with trigger_analysis := none }

/-!
## Helper lemmas
-/

lemma mem_insertDesc {α : Type} (key : α → ℚ) (x y : α) (l : List α) :
    y ∈ insertDesc key x l ↔ y = x ∨ y ∈ l := by
  induction l with
  | nil => simp [insertDesc]
  | cons z t ih =>
    simp only [insertDesc]
    split
    · simp [List.mem_cons]
    · simp only [List.mem_cons, ih]
      tauto

lemma mem_sortByDesc {α : Type} (key : α → ℚ) (l : List α) (x : α) :
    x ∈ sortByDesc key l ↔ x ∈ l := by
  unfold sortByDesc
  induction l with
  | nil => simp
  | cons z t ih =>
    simp [List.foldr_cons, mem_insertDesc, List.mem_cons, ih]

lemma length_insertDesc {α : Type} (key : α → ℚ) (x : α) (l : List α) :
    (insertDesc key x l).length = l.length + 1 := by
  induction l with
  | nil => simp [insertDesc]
  | cons z t ih =>
    simp only [insertDesc]
    split <;> simp [ih]

lemma length_sortByDesc {α : Type} (key : α → ℚ) (l : List α) :
    (sortByDesc key l).length = l.length := by
  unfold sortByDesc
  induction l with
  | nil => rfl
  | cons z t ih => simp [length_insertDesc, ih]

lemma foldl_max_init_le (l : List ℚ) (a : ℚ) : a ≤ l.foldl max a := by
  induction l generalizing a with
  | nil => exact le_refl a
  | cons b t ih => exact le_trans (le_max_left a b) (ih (max a b))

lemma mem_le_foldl_max (l : List ℚ) (a x : ℚ) (hx : x ∈ l) : x ≤ l.foldl max a := by
  induction l generalizing a with
  | nil => cases hx
  | cons b t ih =>
    simp only [List.foldl_cons]
    rcases List.mem_cons.mp hx with h | h
    · subst h
      exact le_trans (le_max_right a x) (foldl_max_init_le t (max a x))
    · exact ih (max a b) h

lemma le_foldl_min_init (l : List ℚ) (a : ℚ) : l.foldl min a ≤ a := by
  induction l generalizing a with
  | nil => exact le_refl a
  | cons b t ih => exact le_trans (ih (min a b)) (min_le_left a b)

lemma foldl_min_le_mem (l : List ℚ) (a x : ℚ) (hx : x ∈ l) : l.foldl min a ≤ x := by
  induction l generalizing a with
  | nil => cases hx
  | cons b t ih =>
    simp only [List.foldl_cons]
    rcases List.mem_cons.mp hx with h | h
    · subst h
      exact le_trans (le_foldl_min_init t (min a x)) (min_le_right a x)
    · exact ih (min a b) h

lemma mem_le_pyMax (l : List ℚ) (x : ℚ) (hx : x ∈ l) : x ≤ pyMax 0 l := by
  cases l with
  | nil => cases hx
  | cons b t =>
    rcases List.mem_cons.mp hx with h | h
    · subst h
      exact foldl_max_init_le t x
    · exact mem_le_foldl_max t b x h

lemma pyMin_le_mem (l : List ℚ) (x : ℚ) (hx : x ∈ l) : pyMin 0 l ≤ x := by
  cases l with
  | nil => cases hx
  | cons b t =>
    rcases List.mem_cons.mp hx with h | h
    · subst h
      exact le_foldl_min_init t x
    · exact foldl_min_le_mem t b x h

/-- The mean of a non-empty list of rationals lies between its `min` and
its `max`. -/
lemma avg_between (l : List ℚ) (hl : l ≠ []) :
    pyMin 0 l ≤ l.sum / (l.length : ℚ) ∧ l.sum / (l.length : ℚ) ≤ pyMax 0 l := by
  have hlen : 0 < (l.length : ℚ) := by
    have := List.length_pos.mpr hl
    exact_mod_cast this
  constructor
  · rw [le_div_iff₀ hlen]
    have h := List.card_nsmul_le_sum l (pyMin 0 l) (fun x hx => pyMin_le_mem l x hx)
    rw [nsmul_eq_mul] at h
    linarith
  · rw [div_le_iff₀ hlen]
    have h := List.sum_le_card_nsmul l (pyMax 0 l) (fun x hx => mem_le_pyMax l x hx)
    rw [nsmul_eq_mul] at h
    linarith

/-- Every statistic produced by the per-group loop is `computeStat` of
some non-empty run group and some trigger dict. -/
lemma mem_analyzeGroupsH {thr : ℚ} {h : Heap}
    {gs : List ((String × String) × List Run)} {s : WorkflowStats}
    (hs : s ∈ (analyzeGroupsH thr h gs).1) :
    ∃ ta repo wname wruns, wruns ≠ [] ∧ s = computeStat thr ta repo wname wruns := by
  induction gs generalizing h with
  | nil => simp [analyzeGroupsH] at hs
  | cons g gs ih =>
    obtain ⟨⟨repo, wname⟩, wruns⟩ := g
    by_cases hz : wruns.length = 0
    · rw [analyzeGroupsH, if_pos hz] at hs
      exact ih hs
    · rw [analyzeGroupsH, if_neg hz] at hs
      rcases htrig : analyzeWorkflowTriggersH h wruns with ⟨a, h1⟩
      rw [htrig] at hs
      simp only at hs
      rcases hrest : analyzeGroupsH thr h1 gs with ⟨rest, h2⟩
      rw [hrest] at hs
      simp only [List.mem_cons] at hs
      rcases hs with hs | hs
      · exact ⟨hRead h1 a, repo, wname, wruns, List.length_pos.mp (Nat.pos_of_ne_zero hz), hs⟩
      · have := ih (h := h1)
        rw [hrest] at this
        exact this hs

/-- Every statistic returned by `analyze_workflows` is `computeStat` of
some non-empty run group and some trigger dict. -/
lemma mem_analyzeWorkflowsH {thr : ℚ} {h : Heap} {runs : List Run}
    {s : WorkflowStats} (hs : s ∈ (analyzeWorkflowsH thr h runs).1) :
    ∃ ta repo wname wruns, wruns ≠ [] ∧ s = computeStat thr ta repo wname wruns := by
  unfold analyzeWorkflowsH at hs
  rcases hgr : analyzeGroupsH thr h (workflowGroups runs) with ⟨stats, h'⟩
  rw [hgr] at hs
  simp only [mem_sortByDesc] at hs
  apply @mem_analyzeGroupsH thr h (workflowGroups runs)
  rw [hgr]
  exact hs

/-!
## Claims
-/

/-- **C8**.  On an empty run collection `analyze` returns an empty list
(and leaves the heap untouched); `repository_summary`,
`filter_problematic_workflows`, `get_trend_analysis` and
`get_workflow_patterns` of empty input return the empty/zero aggregates.
All operations are total functions of the embedding, so none raises. -/
theorem C8_empty_input (thr : ℚ) (h : Heap) (days : ℤ) :
    analyzeWorkflowsH thr h [] = ([], h)
    ∧ getRepositorySummary thr [] = []
    ∧ filterProblematicWorkflows thr [] = []
    ∧ getTrendAnalysis [] days =
        { daily_trends := [], total_analysis_days := days,
          total_runs := 0, total_workflows := 0 }
    ∧ getWorkflowPatterns [] =
        { trigger_events := [], hourly_patterns := [], peak_hours := [] } :=
  ⟨rfl, rfl, rfl, rfl, rfl⟩

/-- **C4**.  Every produced statistic satisfies
`duration_score = max 0 (avg_duration_minutes − threshold)`; hence the
score is never negative and is exactly 0 when the average duration is
at most the threshold. -/
theorem C4_duration_score (thr : ℚ) (h : Heap) (runs : List Run)
    (s : WorkflowStats) (hs : s ∈ (analyzeWorkflowsH thr h runs).1) :
    s.duration_score = max 0 (s.avg_duration_minutes - thr)
    ∧ 0 ≤ s.duration_score
    ∧ (s.avg_duration_minutes ≤ thr → s.duration_score = 0) := by
  obtain ⟨ta, repo, wname, wruns, hne, rfl⟩ := mem_analyzeWorkflowsH hs
  have heq : (computeStat thr ta repo wname wruns).duration_score
      = max 0 ((computeStat thr ta repo wname wruns).avg_duration_minutes - thr) := by
    simp [computeStat]
  refine ⟨heq, ?_, ?_⟩
  · rw [heq]
    exact le_max_left 0 _
  · intro hle
    rw [heq, max_eq_left (by linarith)]

/-- **C4 witness**: the general theorem applied to the concrete
one-run group `[pushRun]` at threshold 10. -/
theorem C4_duration_score_witness :
    pushStat.duration_score = max 0 (pushStat.avg_duration_minutes - 10)
    ∧ 0 ≤ pushStat.duration_score
    ∧ (pushStat.avg_duration_minutes ≤ 10 → pushStat.duration_score = 0) :=
  C4_duration_score 10 [] [pushRun] pushStat
    (by with_unfolding_all exact List.mem_singleton_self pushStat)

/-- **C5**.  Every statistic produced from a (necessarily non-empty) run
group satisfies
`min_duration_minutes ≤ avg_duration_minutes ≤ max_duration_minutes`. -/
theorem C5_avg_between_min_max (thr : ℚ) (h : Heap) (runs : List Run)
    (s : WorkflowStats) (hs : s ∈ (analyzeWorkflowsH thr h runs).1) :
    s.min_duration_minutes ≤ s.avg_duration_minutes
    ∧ s.avg_duration_minutes ≤ s.max_duration_minutes := by
  obtain ⟨ta, repo, wname, wruns, hne, rfl⟩ := mem_analyzeWorkflowsH hs
  have hdne : wruns.map (fun r => (r.duration_seconds : ℚ) / 60) ≠ [] := by
    simpa using hne
  have hb := avg_between (wruns.map (fun r => (r.duration_seconds : ℚ) / 60)) hdne
  constructor
  · have h1 : (computeStat thr ta repo wname wruns).min_duration_minutes
        = pyMin 0 (wruns.map (fun r => (r.duration_seconds : ℚ) / 60)) := by
      simp [computeStat]
    have h2 : (computeStat thr ta repo wname wruns).avg_duration_minutes
        = (wruns.map (fun r => (r.duration_seconds : ℚ) / 60)).sum
          / ((wruns.map (fun r => (r.duration_seconds : ℚ) / 60)).length : ℚ) := by
      simp [computeStat]
    rw [h1, h2]
    exact hb.1
  · have h1 : (computeStat thr ta repo wname wruns).max_duration_minutes
        = pyMax 0 (wruns.map (fun r => (r.duration_seconds : ℚ) / 60)) := by
      simp [computeStat]
    have h2 : (computeStat thr ta repo wname wruns).avg_duration_minutes
        = (wruns.map (fun r => (r.duration_seconds : ℚ) / 60)).sum
          / ((wruns.map (fun r => (r.duration_seconds : ℚ) / 60)).length : ℚ) := by
      simp [computeStat]
    rw [h1, h2]
    exact hb.2

lemma computeStat_combined_cases (thr : ℚ) (ta : TrigDict)
    (repo wname : String) (l : List Run) :
    (computeStat thr ta repo wname l).combined_score
      = ((computeStat thr ta repo wname l).duration_score * (6 / 10)
          + (computeStat thr ta repo wname l).frequency_score * (4 / 10))
        * (if (computeStat thr ta repo wname l).is_pr_triggered = true
              ∧ (computeStat thr ta repo wname l).avg_duration_minutes > thr then 13 / 10
           else if (computeStat thr ta repo wname l).is_push_triggered = true
              ∧ (computeStat thr ta repo wname l).is_pr_triggered = false
              ∧ (computeStat thr ta repo wname l).avg_duration_minutes > thr then 12 / 10
           else 1) := by
  simp only [computeStat]
  by_cases hpr : dTruthy ta "is_pr_triggered" = true <;>
    by_cases hpu : dTruthy ta "is_push_triggered" = true <;>
      by_cases havg : (l.map (fun r => (r.duration_seconds : ℚ) / 60)).sum
          / ((l.map (fun r => (r.duration_seconds : ℚ) / 60)).length : ℚ) > thr <;>
        simp_all [Bool.not_eq_true]

/-- **C3**.  Every produced statistic satisfies
`combined_score = (duration_score·0.6 + frequency_score·0.4) · m`, where
`frequency_score` is the stored (boosted) frequency score and `m` is 1.3
for a pull-request-triggered group over threshold, 1.2 for a
push-triggered (and not pull-request-triggered) group over threshold,
and 1.0 otherwise. -/
theorem C3_combined_score (thr : ℚ) (h : Heap) (runs : List Run)
    (s : WorkflowStats) (hs : s ∈ (analyzeWorkflowsH thr h runs).1) :
    s.combined_score
      = (s.duration_score * (6 / 10) + s.frequency_score * (4 / 10))
        * (if s.is_pr_triggered = true ∧ s.avg_duration_minutes > thr then 13 / 10
           else if s.is_push_triggered = true ∧ s.is_pr_triggered = false
              ∧ s.avg_duration_minutes > thr then 12 / 10
           else 1) := by
  obtain ⟨ta, repo, wname, wruns, hne, rfl⟩ := mem_analyzeWorkflowsH hs
  exact computeStat_combined_cases thr ta repo wname wruns

/-- **C3 witness**: the general theorem applied to the concrete
one-run group `[pushRun]` at threshold 10. -/
theorem C3_combined_score_witness :
    pushStat.combined_score
      = (pushStat.duration_score * (6 / 10) + pushStat.frequency_score * (4 / 10))
        * (if pushStat.is_pr_triggered = true ∧ pushStat.avg_duration_minutes > 10 then 13 / 10
           else if pushStat.is_push_triggered = true ∧ pushStat.is_pr_triggered = false
              ∧ pushStat.avg_duration_minutes > 10 then 12 / 10
           else 1) :=
  C3_combined_score 10 [] [pushRun] pushStat
    (by with_unfolding_all exact List.mem_singleton_self pushStat)

/-- **C1 counterexample**.  The group of the single 30-minute push-
triggered run `pushRun` is push-triggered with
`avg_duration_minutes = 30 > 2 × 10`, yet `analyze` (threshold 10)
assigns it `optimization_priority = "high"`, not `"critical"`: the
code's `critical` branch requires `is_pr_triggered`, so a push-only
group can never be `critical`. -/
theorem C1_counterexample :
    pushStat ∈ (analyzeWorkflowsH 10 [] [pushRun]).1
    ∧ (pushStat.is_pr_triggered || pushStat.is_push_triggered) = true
    ∧ pushStat.avg_duration_minutes > 2 * 10
    ∧ pushStat.optimization_priority = "high"
    ∧ pushStat.optimization_priority ≠ "critical" := by
  refine ⟨by with_unfolding_all exact List.mem_singleton_self pushStat, ?_, ?_, ?_, ?_⟩ <;>
    with_unfolding_all decide

lemma computeStat_priority (thr : ℚ) (ta : TrigDict) (repo wname : String)
    (l : List Run) :
    (computeStat thr ta repo wname l).optimization_priority
      = determineOptimizationPriority thr
          (computeStat thr ta repo wname l).avg_duration_minutes
          (computeStat thr ta repo wname l).frequency_score ta := by
  simp [computeStat]

lemma computeStat_is_pr (thr : ℚ) (ta : TrigDict) (repo wname : String)
    (l : List Run) :
    (computeStat thr ta repo wname l).is_pr_triggered
      = dTruthy ta "is_pr_triggered" := by
  simp [computeStat]

/-- **C1 (amended)**.  Every produced statistic of a
*pull-request-triggered* group whose average duration strictly exceeds
twice the threshold is assigned `optimization_priority = "critical"`
(and hence never `"high"`, `"medium"` or `"low"`).  (The original
claim's "or push-triggered" fails: see `C1_counterexample`.) -/
theorem C1_pr_critical (thr : ℚ) (h : Heap) (runs : List Run)
    (s : WorkflowStats) (hs : s ∈ (analyzeWorkflowsH thr h runs).1)
    (hpr : s.is_pr_triggered = true)
    (havg : s.avg_duration_minutes > thr * 2) :
    s.optimization_priority = "critical" := by
  obtain ⟨ta, repo, wname, wruns, hne, rfl⟩ := mem_analyzeWorkflowsH hs
  rw [computeStat_is_pr] at hpr
  rw [computeStat_priority, determineOptimizationPriority, if_pos ⟨hpr, havg⟩]

/-- **C1 witness**: the amended theorem applied to the concrete
one-run group `[prRun]` (25-minute pull-request run, threshold 10). -/
theorem C1_pr_critical_witness : prStat.optimization_priority = "critical" :=
  C1_pr_critical 10 [] [prRun] prStat
    (by with_unfolding_all exact List.mem_singleton_self prStat)
    (by with_unfolding_all decide) (by with_unfolding_all decide)

/-- **C5 witness**: the general theorem applied to the concrete
one-run group `[prRun]` at threshold 10. -/
theorem C5_avg_between_min_max_witness :
    prStat.min_duration_minutes ≤ prStat.avg_duration_minutes
    ∧ prStat.avg_duration_minutes ≤ prStat.max_duration_minutes :=
  C5_avg_between_min_max 10 [] [prRun] prStat
    (by with_unfolding_all exact List.mem_singleton_self prStat)

/-!
### Counting lemmas for the repository summary (C7)
-/

lemma addToMulti_keys_toFinset {κ ν : Type} [DecidableEq κ]
    (gs : List (κ × List ν)) (k : κ) (v : ν) :
    ((addToMulti gs k v).map Prod.fst).toFinset
      = insert k (gs.map Prod.fst).toFinset := by
  induction gs with
  | nil => simp [addToMulti]
  | cons g t ih =>
    obtain ⟨k', vs⟩ := g
    by_cases h : k' = k
    · subst h
      simp [addToMulti]
    · simp only [addToMulti, if_neg h, List.map_cons, List.toFinset_cons, ih]
      rw [Finset.Insert.comm]

lemma mem_addToMulti_keys {κ ν : Type} [DecidableEq κ]
    (gs : List (κ × List ν)) (k x : κ) (v : ν) :
    x ∈ (addToMulti gs k v).map Prod.fst ↔ x ∈ gs.map Prod.fst ∨ x = k := by
  induction gs with
  | nil => simp [addToMulti]
  | cons g t ih =>
    obtain ⟨k', vs⟩ := g
    by_cases h : k' = k
    · rw [addToMulti, if_pos h]
      subst h
      simp only [List.map_cons, List.mem_cons]
      tauto
    · rw [addToMulti, if_neg h]
      simp only [List.map_cons, List.mem_cons, ih]
      tauto

lemma addToMulti_keys_nodup {κ ν : Type} [DecidableEq κ]
    (gs : List (κ × List ν)) (k : κ) (v : ν)
    (hd : (gs.map Prod.fst).Nodup) : ((addToMulti gs k v).map Prod.fst).Nodup := by
  induction gs with
  | nil => simp [addToMulti]
  | cons g t ih =>
    obtain ⟨k', vs⟩ := g
    simp only [List.map_cons, List.nodup_cons] at hd
    by_cases h : k' = k
    · rw [addToMulti, if_pos h]
      simp only [List.map_cons, List.nodup_cons]
      exact hd
    · rw [addToMulti, if_neg h]
      simp only [List.map_cons, List.nodup_cons, mem_addToMulti_keys]
      exact ⟨by tauto, ih hd.2⟩

lemma addToMulti_snd_ne_nil {κ ν : Type} [DecidableEq κ]
    (gs : List (κ × List ν)) (k : κ) (v : ν)
    (hd : ∀ p ∈ gs, p.2 ≠ []) : ∀ p ∈ addToMulti gs k v, p.2 ≠ [] := by
  induction gs with
  | nil =>
    intro p hp
    simp only [addToMulti, List.mem_singleton] at hp
    subst hp
    simp
  | cons g t ih =>
    obtain ⟨k', vs⟩ := g
    intro p hp
    by_cases h : k' = k
    · rw [addToMulti, if_pos h] at hp
      rcases List.mem_cons.mp hp with h' | h'
      · subst h'
        simp
      · exact hd p (List.mem_cons_of_mem _ h')
    · rw [addToMulti, if_neg h] at hp
      rcases List.mem_cons.mp hp with h' | h'
      · subst h'
        exact hd _ (List.mem_cons_self _ _)
      · exact ih (fun q hq => hd q (List.mem_cons_of_mem _ hq)) p h'

lemma workflowGroups_aux_keys_toFinset (runs : List Run)
    (gs : List ((String × String) × List Run)) :
    ((runs.foldl (fun gs r => addToMulti gs (runKey r) r) gs).map Prod.fst).toFinset
      = (gs.map Prod.fst).toFinset ∪ (runs.map runKey).toFinset := by
  induction runs generalizing gs with
  | nil => simp
  | cons r t ih =>
    simp only [List.foldl_cons, List.map_cons, List.toFinset_cons]
    rw [ih, addToMulti_keys_toFinset, Finset.insert_union, Finset.union_insert]

lemma workflowGroups_aux_nodup (runs : List Run)
    (gs : List ((String × String) × List Run))
    (hd : (gs.map Prod.fst).Nodup) :
    ((runs.foldl (fun gs r => addToMulti gs (runKey r) r) gs).map Prod.fst).Nodup := by
  induction runs generalizing gs with
  | nil => exact hd
  | cons r t ih => exact ih _ (addToMulti_keys_nodup _ _ _ hd)

lemma workflowGroups_aux_ne_nil (runs : List Run)
    (gs : List ((String × String) × List Run))
    (hd : ∀ p ∈ gs, p.2 ≠ []) :
    ∀ p ∈ runs.foldl (fun gs r => addToMulti gs (runKey r) r) gs, p.2 ≠ [] := by
  induction runs generalizing gs with
  | nil => exact hd
  | cons r t ih => exact ih _ (addToMulti_snd_ne_nil _ _ _ hd)

/-- Each group of `workflowGroups` is non-empty. -/
lemma workflowGroups_ne_nil (runs : List Run) :
    ∀ p ∈ workflowGroups runs, p.2 ≠ [] :=
  workflowGroups_aux_ne_nil runs [] (by simp)

/-- The number of groups equals the number of distinct
`(repository, workflow_name)` keys among the input runs. -/
lemma workflowGroups_length (runs : List Run) :
    (workflowGroups runs).length = ((runs.map runKey).toFinset).card := by
  have hnd := workflowGroups_aux_nodup runs [] (by simp)
  have htf := workflowGroups_aux_keys_toFinset runs []
  simp only [List.map_nil, List.toFinset_nil, Finset.empty_union] at htf
  unfold workflowGroups
  calc (runs.foldl (fun gs r => addToMulti gs (runKey r) r) []).length
      = ((runs.foldl (fun gs r => addToMulti gs (runKey r) r) []).map Prod.fst).length :=
        (List.length_map _ _).symm
    _ = ((runs.foldl (fun gs r => addToMulti gs (runKey r) r) []).map
          Prod.fst).toFinset.card := (List.toFinset_card_of_nodup hnd).symm
    _ = ((runs.map runKey).toFinset).card := by rw [htf]

lemma length_analyzeGroupsH (thr : ℚ) (h : Heap)
    (gs : List ((String × String) × List Run))
    (hne : ∀ p ∈ gs, p.2 ≠ []) :
    (analyzeGroupsH thr h gs).1.length = gs.length := by
  induction gs generalizing h with
  | nil => simp [analyzeGroupsH]
  | cons g t ih =>
    obtain ⟨⟨repo, wname⟩, wruns⟩ := g
    have hz : ¬ wruns.length = 0 := by
      have := hne _ (List.mem_cons_self _ _)
      simpa [List.length_eq_zero] using this
    rw [analyzeGroupsH, if_neg hz]
    rcases htrig : analyzeWorkflowTriggersH h wruns with ⟨a, h1⟩
    simp only
    rcases hrest : analyzeGroupsH thr h1 t with ⟨rest, h2⟩
    simp only [List.length_cons]
    have := ih (h := h1) (fun q hq => hne q (List.mem_cons_of_mem _ hq))
    rw [hrest] at this
    simp only at this
    rw [this]

lemma updateRollup_total_workflows (thr : ℚ) (d : RepoRollup) (s : WorkflowStats) :
    (updateRollup thr d s).total_workflows = d.total_workflows + 1 := by
  rw [updateRollup]
  split <;> rfl

lemma sumTW_addStatToSummary (thr : ℚ) (acc : List (String × RepoRollup))
    (s : WorkflowStats) :
    sumTotalWorkflows (addStatToSummary thr acc s) = sumTotalWorkflows acc + 1 := by
  induction acc with
  | nil => simp [addStatToSummary, sumTotalWorkflows, updateRollup_total_workflows]
  | cons p t ih =>
    obtain ⟨repo, d⟩ := p
    by_cases h : repo = s.repository
    · simp [addStatToSummary, if_pos h, sumTotalWorkflows,
        updateRollup_total_workflows]
      omega
    · simp only [addStatToSummary, if_neg h, sumTotalWorkflows, List.map_cons,
        List.sum_cons] at *
      omega

lemma sumTW_foldl (thr : ℚ) (stats : List WorkflowStats)
    (acc : List (String × RepoRollup)) :
    sumTotalWorkflows (stats.foldl (addStatToSummary thr) acc)
      = sumTotalWorkflows acc + stats.length := by
  induction stats generalizing acc with
  | nil => simp
  | cons s t ih =>
    simp only [List.foldl_cons, List.length_cons]
    rw [ih, sumTW_addStatToSummary]
    omega

/-- The average-duration fill-in pass does not change any
`total_workflows` counter. -/
lemma sumTW_getRepositorySummary (thr : ℚ) (stats : List WorkflowStats) :
    sumTotalWorkflows (getRepositorySummary thr stats) = stats.length := by
  rw [getRepositorySummary]
  have hmap : ∀ l : List (String × RepoRollup),
      sumTotalWorkflows (l.map (fun p =>
        if !p.2.workflows.isEmpty then
          (p.1, { p.2 with avg_duration :=
            (p.2.workflows.map (·.avg_duration_minutes)).sum / (p.2.workflows.length : ℚ) })
        else (p.1, p.2))) = sumTotalWorkflows l := by
    intro l
    induction l with
    | nil => rfl
    | cons p t ih =>
      simp only [sumTotalWorkflows, List.map_cons, List.sum_cons] at *
      rw [ih]
      congr 1
      split <;> rfl
  rw [hmap, sumTW_foldl]
  simp [sumTotalWorkflows]

/-- **C7**.  Summing `total_workflows` of `repository_summary` over all
repositories yields the length of the statistics list, which equals the
number of distinct `(repository, workflow)` keys among the input runs. -/
theorem C7_summary_counts (thr : ℚ) (h : Heap) (runs : List Run) :
    sumTotalWorkflows (getRepositorySummary thr (analyzeWorkflowsH thr h runs).1)
      = (analyzeWorkflowsH thr h runs).1.length
    ∧ (analyzeWorkflowsH thr h runs).1.length
      = ((runs.map runKey).toFinset).card := by
  refine ⟨sumTW_getRepositorySummary thr _, ?_⟩
  unfold analyzeWorkflowsH
  rcases hgr : analyzeGroupsH thr h (workflowGroups runs) with ⟨stats, h'⟩
  simp only [length_sortByDesc]
  have := length_analyzeGroupsH thr h (workflowGroups runs) (workflowGroups_ne_nil runs)
  rw [hgr] at this
  simp only at this
  rw [this, workflowGroups_length]

/-!
### The trigger classifier's fallback (C2)
-/

/-- **C2 counterexample**.  Two failures of the claim as stated:
(a) the text `"push"` YAML-parses to the plain scalar string `"push"`
(it is none of PyYAML's boolean/null/number scalars), so structured
parsing does *not* yield a keyed configuration document — yet nothing
raises (`'on' in "push"` is a substring test, false), so the classifier
returns the all-false initial profile instead of falling back, and the
push flag stays `false` with score 0;
(b) when the fallback *does* run — on `"on: [workflow_dispatch"`, which
PyYAML rejects (unclosed flow sequence, modelled by the erroring
`parse`) — it searches only three keyword groups, so the
manual-dispatch flag stays `false` although the text contains
`"workflow_dispatch"`. -/
theorem C2_counterexample :
    (analyzeWorkflowTriggersGC (fun _ => .ok (.ystr "push")) (some "push")
        = initialGCAnalysis
      ∧ dTruthy (analyzeWorkflowTriggersGC (fun _ => .ok (.ystr "push"))
          (some "push")) "is_push_triggered" = false
      ∧ dNum (analyzeWorkflowTriggersGC (fun _ => .ok (.ystr "push"))
          (some "push")) "trigger_frequency_score" = 0)
    ∧ (pySubstr "workflow_dispatch" (pyLower "on: [workflow_dispatch") = true
      ∧ dTruthy (analyzeWorkflowTriggersGC (fun _ => .error ())
          (some "on: [workflow_dispatch")) "is_manual_triggered" = false) := by
  refine ⟨⟨rfl, ?_, ?_⟩, ?_, ?_⟩ <;> with_unfolding_all decide

/-- **C2 (amended)**.  For every trigger declaration text whose
structured processing raises (YAML parse error, or a parsed document
that does not support the `'on' in ·` / `·['on']` operations), the
classifier falls back to case-insensitive substring search over the raw
text for *three* keyword groups (pull-request, push, schedule;
manual-dispatch is not searched in the fallback) and never raises; in
particular, for any such text containing the substring `"push"`, the
resulting profile has the push flag true and a
`trigger_frequency_score` that includes the +2 push contribution. -/
theorem C2_fallback_on_raise (parse : String → Except Unit Yaml) (c : String)
    (hc : c ≠ "") (he : gcTryBlock parse c = .error ()) :
    analyzeWorkflowTriggersGC parse (some c) = gcTextFallback c
    ∧ (pySubstr "push" (pyLower c) = true →
        dTruthy (gcTextFallback c) "is_push_triggered" = true
        ∧ dNum (gcTextFallback c) "trigger_frequency_score"
          = (if pySubstr "pull_request" (pyLower c) then 3 else 0) + 2
            + (if pySubstr "schedule" (pyLower c) then 1 else 0)) := by
  constructor
  · rw [analyzeWorkflowTriggersGC, if_neg hc, he]
  · intro hpush
    rw [gcTextFallback]
    by_cases hpr : pySubstr "pull_request" (pyLower c) = true <;>
      by_cases hsch : pySubstr "schedule" (pyLower c) = true <;>
        simp [hpr, hsch, hpush, dSet, dTruthy, dGet, dNum, initialGCAnalysis,
          truthy]

/-- **C2 witness**: the amended theorem applied to the unparseable text
`"@@push@@"` (PyYAML raises: `@` is a reserved indicator character,
modelled by the erroring `parse`). -/
theorem C2_fallback_on_raise_witness :
    analyzeWorkflowTriggersGC (fun _ => .error ()) (some "@@push@@")
        = gcTextFallback "@@push@@"
    ∧ (pySubstr "push" (pyLower "@@push@@") = true →
        dTruthy (gcTextFallback "@@push@@") "is_push_triggered" = true
        ∧ dNum (gcTextFallback "@@push@@") "trigger_frequency_score"
          = (if pySubstr "pull_request" (pyLower "@@push@@") then 3 else 0) + 2
            + (if pySubstr "schedule" (pyLower "@@push@@") then 1 else 0)) :=
  C2_fallback_on_raise (fun _ => .error ()) "@@push@@" (by decide) rfl

/-!
### Heap lemmas (C9, C6, C10)
-/

lemma hRead_append_self (h : Heap) (d : TrigDict) :
    hRead (h ++ [d]) h.length = d := by
  induction h with
  | nil => rfl
  | cons x t ih =>
    simp only [hRead, List.getD] at ih ⊢
    simp only [List.cons_append, List.length_cons, List.getElem?_cons_succ]
    exact ih

lemma set_append_self (h : Heap) (d v : TrigDict) :
    (h ++ [d]).set h.length v = h ++ [v] := by
  induction h with
  | nil => rfl
  | cons x t ih => simp [List.set, ih]

lemma hRead_append_of_lt (h ext : Heap) (a : Nat) (ha : a < h.length) :
    hRead (h ++ ext) a = hRead h a := by
  induction h generalizing a with
  | nil => cases ha
  | cons x t ih =>
    cases a with
    | zero => rfl
    | succ b =>
      have : b < t.length := Nat.lt_of_succ_lt_succ ha
      simpa [hRead, List.getD] using ih b this

/-- The analyzer's trigger routine allocates exactly one fresh dict,
holding `triggerDictResult` of the pre-call heap, and returns its
address. -/
lemma analyzeWorkflowTriggersH_spec (h : Heap) (rs : List Run) :
    analyzeWorkflowTriggersH h rs = (h.length, h ++ [triggerDictResult h rs]) := by
  cases rs with
  | nil => rfl
  | cons first rest =>
    simp only [analyzeWorkflowTriggersH, triggerDictResult, hAlloc, hWrite,
      hRead_append_self, set_append_self]

/-- The per-group loop only extends the heap. -/
lemma analyzeGroupsH_extends (thr : ℚ)
    (gs : List ((String × String) × List Run)) (h : Heap) :
    ∃ ext, (analyzeGroupsH thr h gs).2 = h ++ ext := by
  induction gs generalizing h with
  | nil => exact ⟨[], by simp [analyzeGroupsH]⟩
  | cons g t ih =>
    obtain ⟨⟨repo, wname⟩, wruns⟩ := g
    by_cases hz : wruns.length = 0
    · rw [analyzeGroupsH, if_pos hz]
      exact ih h
    · rw [analyzeGroupsH, if_neg hz, analyzeWorkflowTriggersH_spec]
      simp only
      obtain ⟨ext, hext⟩ := ih (h ++ [triggerDictResult h wruns])
      refine ⟨[triggerDictResult h wruns] ++ ext, ?_⟩
      rcases hrest : analyzeGroupsH thr (h ++ [triggerDictResult h wruns]) t
        with ⟨rest, h2⟩
      rw [hrest] at hext
      simp only at hext
      simp only [hrest]
      rw [hext, List.append_assoc]

/-- **C9**.  `analyze_workflows` never mutates an input run record's
attached trigger-analysis mapping: the dict any input run references is
unchanged after the call (the analyzer copies the first run's dict into
a fresh allocation before adding the `is_high_frequency_trigger`
entry, and writes only through fresh addresses). -/
theorem C9_input_runs_unchanged (thr : ℚ) (h : Heap) (runs : List Run)
    (r : Run) (_hr : r ∈ runs) (a : Nat) (_ha : r.trigger_analysis = some a)
    (hlt : a < h.length) :
    hRead (analyzeWorkflowsH thr h runs).2 a = hRead h a := by
  have hext := analyzeGroupsH_extends thr (workflowGroups runs) h
  obtain ⟨ext, hext⟩ := hext
  unfold analyzeWorkflowsH
  rcases hgr : analyzeGroupsH thr h (workflowGroups runs) with ⟨stats, h'⟩
  rw [hgr] at hext
  simp only at hext ⊢
  rw [hext]
  exact hRead_append_of_lt h ext a hlt

/-- **C9 witness**: the theorem applied to the concrete heap `heap1`
and the run `attachedRun`, whose profile lives at address 0. -/
theorem C9_input_runs_unchanged_witness :
    hRead (analyzeWorkflowsH 10 heap1 [attachedRun]).2 0 = hRead heap1 0 :=
  C9_input_runs_unchanged 10 heap1 [attachedRun] attachedRun
    (List.mem_singleton_self attachedRun) 0 rfl (by decide)

lemma dGet_dSet_ne (d : TrigDict) (k k' : String) (v : PVal) (hk : k' ≠ k) :
    dGet (dSet d k v) k' = dGet d k' := by
  induction d with
  | nil => simp [dSet, dGet, Ne.symm hk]
  | cons e t ih =>
    obtain ⟨k'', v''⟩ := e
    by_cases h : k'' = k
    · rw [dSet, if_pos h]
      subst h
      simp [dGet, Ne.symm hk]
    · rw [dSet, if_neg h]
      by_cases h' : k'' = k'
      · simp [dGet, h']
      · simp [dGet, h', ih]

lemma triggers_read (h : Heap) (rs : List Run) :
    hRead (analyzeWorkflowTriggersH h rs).2 (analyzeWorkflowTriggersH h rs).1
      = triggerDictResult h rs := by
  rw [analyzeWorkflowTriggersH_spec]
  exact hRead_append_self h _

/-- `triggerDictResult` reads the heap only through the first run's
attached address. -/
lemma triggerDictResult_congr (h h2 : Heap) (rs : List Run)
    (hh : ∀ r ∈ rs, ∀ a, r.trigger_analysis = some a → hRead h2 a = hRead h a) :
    triggerDictResult h2 rs = triggerDictResult h rs := by
  cases rs with
  | nil => rfl
  | cons first rest =>
    cases hta : first.trigger_analysis with
    | none => simp [triggerDictResult, hta]
    | some a =>
      have hr := hh first (List.mem_cons_self _ _) a hta
      simp only [triggerDictResult, hta]
      rw [hr]

lemma analyzeGroupsP_congr (thr : ℚ) (h h2 : Heap)
    (gs : List ((String × String) × List Run))
    (hh : ∀ p ∈ gs, ∀ r ∈ p.2, ∀ a, r.trigger_analysis = some a →
      hRead h2 a = hRead h a) :
    analyzeGroupsP thr h2 gs = analyzeGroupsP thr h gs := by
  induction gs with
  | nil => rfl
  | cons g t ih =>
    obtain ⟨⟨repo, wname⟩, wruns⟩ := g
    have hrec := ih (fun p hp => hh p (List.mem_cons_of_mem _ hp))
    by_cases hz : wruns.length = 0
    · rw [analyzeGroupsP, if_pos hz, analyzeGroupsP, if_pos hz, hrec]
    · rw [analyzeGroupsP, if_neg hz, analyzeGroupsP, if_neg hz, hrec,
        triggerDictResult_congr h h2 wruns
          (hh _ (List.mem_cons_self _ _))]

/-- Under address validity, the heap-passing loop computes the same
statistics as its heap-free rendering. -/
lemma analyzeGroupsH_eq_pure (thr : ℚ)
    (gs : List ((String × String) × List Run)) (h : Heap)
    (hv : ∀ p ∈ gs, ∀ r ∈ p.2, ∀ a, r.trigger_analysis = some a →
      a < h.length) :
    (analyzeGroupsH thr h gs).1 = analyzeGroupsP thr h gs := by
  induction gs generalizing h with
  | nil => rfl
  | cons g t ih =>
    obtain ⟨⟨repo, wname⟩, wruns⟩ := g
    by_cases hz : wruns.length = 0
    · rw [analyzeGroupsH, if_pos hz, analyzeGroupsP, if_pos hz]
      exact ih h (fun p hp => hv p (List.mem_cons_of_mem _ hp))
    · rw [analyzeGroupsH, if_neg hz, analyzeGroupsP, if_neg hz,
        analyzeWorkflowTriggersH_spec]
      simp only [hRead_append_self]
      rcases hrest : analyzeGroupsH thr (h ++ [triggerDictResult h wruns]) t
        with ⟨rest, hh2⟩
      simp only
      have htail : rest = analyzeGroupsP thr h t := by
        have hv' : ∀ p ∈ t, ∀ r ∈ p.2, ∀ a, r.trigger_analysis = some a →
            a < (h ++ [triggerDictResult h wruns]).length := by
          intro p hp r hr a ha
          have := hv p (List.mem_cons_of_mem _ hp) r hr a ha
          simp only [List.length_append, List.length_singleton]
          omega
        have h1 := ih (h ++ [triggerDictResult h wruns]) hv'
        rw [hrest] at h1
        simp only at h1
        rw [h1]
        exact analyzeGroupsP_congr thr h _ t (fun p hp r hr a ha =>
          hRead_append_of_lt h _ a (hv p (List.mem_cons_of_mem _ hp) r hr a ha))
      rw [htail]

lemma mem_addToMulti_val {κ ν : Type} [DecidableEq κ]
    (gs : List (κ × List ν)) (k : κ) (v : ν) :
    ∀ p ∈ addToMulti gs k v, ∀ x ∈ p.2, (∃ q ∈ gs, x ∈ q.2) ∨ x = v := by
  induction gs with
  | nil =>
    intro p hp x hx
    simp only [addToMulti, List.mem_singleton] at hp
    subst hp
    simp only [List.mem_singleton] at hx
    exact Or.inr hx
  | cons g t ih =>
    obtain ⟨k', vs⟩ := g
    intro p hp x hx
    by_cases h : k' = k
    · rw [addToMulti, if_pos h] at hp
      rcases List.mem_cons.mp hp with h' | h'
      · subst h'
        rcases List.mem_append.mp hx with h'' | h''
        · exact Or.inl ⟨(k', vs), List.mem_cons_self _ _, h''⟩
        · simp only [List.mem_singleton] at h''
          exact Or.inr h''
      · exact Or.inl ⟨p, List.mem_cons_of_mem _ h', hx⟩
    · rw [addToMulti, if_neg h] at hp
      rcases List.mem_cons.mp hp with h' | h'
      · subst h'
        exact Or.inl ⟨(k', vs), List.mem_cons_self _ _, hx⟩
      · rcases ih p h' x hx with ⟨q, hq, hxq⟩ | h''
        · exact Or.inl ⟨q, List.mem_cons_of_mem _ hq, hxq⟩
        · exact Or.inr h''

lemma workflowGroups_aux_run_mem (runs : List Run)
    (gs : List ((String × String) × List Run)) :
    ∀ p ∈ runs.foldl (fun gs r => addToMulti gs (runKey r) r) gs,
      ∀ x ∈ p.2, (∃ q ∈ gs, x ∈ q.2) ∨ x ∈ runs := by
  induction runs generalizing gs with
  | nil =>
    intro p hp x hx
    exact Or.inl ⟨p, hp, hx⟩
  | cons r t ih =>
    intro p hp x hx
    simp only [List.foldl_cons] at hp
    rcases ih (addToMulti gs (runKey r) r) p hp x hx with ⟨q, hq, hxq⟩ | h'
    · rcases mem_addToMulti_val gs (runKey r) r q hq x hxq with ⟨q', hq', hxq'⟩ | h''
      · exact Or.inl ⟨q', hq', hxq'⟩
      · exact Or.inr (by simp [h''])
    · exact Or.inr (List.mem_cons_of_mem _ h')

/-- Every run in a group of `workflowGroups runs` is an input run. -/
lemma workflowGroups_run_mem (runs : List Run) :
    ∀ p ∈ workflowGroups runs, ∀ x ∈ p.2, x ∈ runs := by
  intro p hp x hx
  rcases workflowGroups_aux_run_mem runs [] p hp x hx with ⟨q, hq, _⟩ | h
  · cases hq
  · exact h

/-- **C6**.  `analyze` is deterministic and stateless: running it a
second time on the same run collection — with the only mutable state,
the heap of trigger dicts, as the first call left it — returns the
identical statistics list.  (Address validity of the attached profiles
is the model-level counterpart of Python references always denoting
live objects.) -/
theorem C6_deterministic (thr : ℚ) (h : Heap) (runs : List Run)
    (hvalid : ∀ r ∈ runs, ∀ a, r.trigger_analysis = some a → a < h.length) :
    (analyzeWorkflowsH thr (analyzeWorkflowsH thr h runs).2 runs).1
      = (analyzeWorkflowsH thr h runs).1 := by
  have hvG : ∀ p ∈ workflowGroups runs, ∀ r ∈ p.2, ∀ a,
      r.trigger_analysis = some a → a < h.length :=
    fun p hp r hr a ha => hvalid r (workflowGroups_run_mem runs p hp r hr) a ha
  obtain ⟨ext, hext⟩ := analyzeGroupsH_extends thr (workflowGroups runs) h
  simp only [analyzeWorkflowsH]
  rcases hgr : analyzeGroupsH thr h (workflowGroups runs) with ⟨stats, h'⟩
  rw [hgr] at hext
  simp only at hext ⊢
  subst hext
  have hvG' : ∀ p ∈ workflowGroups runs, ∀ r ∈ p.2, ∀ a,
      r.trigger_analysis = some a → a < (h ++ ext).length := by
    intro p hp r hr a ha
    have := hvG p hp r hr a ha
    simp only [List.length_append]
    omega
  have h2 := analyzeGroupsH_eq_pure thr (workflowGroups runs) (h ++ ext) hvG'
  have h3 : analyzeGroupsP thr (h ++ ext) (workflowGroups runs)
      = analyzeGroupsP thr h (workflowGroups runs) :=
    analyzeGroupsP_congr thr h (h ++ ext) (workflowGroups runs)
      (fun p hp r hr a ha => hRead_append_of_lt h ext a (hvG p hp r hr a ha))
  have h1 := analyzeGroupsH_eq_pure thr (workflowGroups runs) h hvG
  rw [hgr] at h1
  simp only at h1
  rw [h2, h3, ← h1]

/-- **C6 witness**: the theorem applied to the concrete heap `heap1`
and the two-run collection `[attachedRun, laterRun]`. -/
theorem C6_deterministic_witness :
    (analyzeWorkflowsH 10
        (analyzeWorkflowsH 10 heap1 [attachedRun, laterRun]).2
        [attachedRun, laterRun]).1
      = (analyzeWorkflowsH 10 heap1 [attachedRun, laterRun]).1 :=
  C6_deterministic 10 heap1 [attachedRun, laterRun] (by
    intro r hr a ha
    simp only [List.mem_cons, List.not_mem_nil, or_false] at hr
    have hl : heap1.length = 2 := rfl
    rcases hr with rfl | rfl
    · rw [show attachedRun.trigger_analysis = some 0 from rfl,
        Option.some.injEq] at ha
      omega
    · rw [show laterRun.trigger_analysis = some 1 from rfl,
        Option.some.injEq] at ha
      omega)

/-- The group-level trigger dict is determined solely by the first run's
attached profile value, the group's event strings, and its size. -/
lemma triggerDictResult_determined (h h2 : Heap) (rs rs2 : List Run)
    (hne : rs ≠ [])
    (hfirst : firstProfile h rs = firstProfile h2 rs2)
    (hevents : rs.map (·.event) = rs2.map (·.event)) :
    triggerDictResult h rs = triggerDictResult h2 rs2 := by
  cases rs with
  | nil => exact absurd rfl hne
  | cons f t =>
    cases rs2 with
    | nil => simp at hevents
    | cons f2 t2 =>
      have hlen : t.length = t2.length := by
        have := congrArg List.length hevents
        simpa using this
      have hfb : analyzerFallbackDict (f :: t) = analyzerFallbackDict (f2 :: t2) := by
        unfold analyzerFallbackDict
        rw [hevents]
      cases hta : f.trigger_analysis with
      | none =>
        cases hta2 : f2.trigger_analysis with
        | none => simp only [triggerDictResult, hta, hta2, hfb, List.length_cons, hlen]
        | some a2 => simp [firstProfile, hta, hta2] at hfirst
      | some a =>
        cases hta2 : f2.trigger_analysis with
        | none => simp [firstProfile, hta, hta2] at hfirst
        | some a2 =>
          have hr : hRead h a = hRead h2 a2 := by
            simpa [firstProfile, hta, hta2] using hfirst
          simp only [triggerDictResult, hta, hta2, hr, hfb, List.length_cons, hlen]

/-- **C10**.  The trigger flags and `trigger_frequency_score` of a group
are determined solely by the first run's attached profile value together
with the group's event strings and size — later runs' attached profiles
are irrelevant; a non-empty attached profile of the first run is used
verbatim (only the `is_high_frequency_trigger` entry is added), and
otherwise the event-string fallback over all the group's runs is used. -/
theorem C10_first_run_profile (h h2 : Heap) (rs rs2 : List Run)
    (hne : rs ≠ [])
    (hfirst : firstProfile h rs = firstProfile h2 rs2)
    (hevents : rs.map (·.event) = rs2.map (·.event)) :
    hRead (analyzeWorkflowTriggersH h rs).2 (analyzeWorkflowTriggersH h rs).1
      = hRead (analyzeWorkflowTriggersH h2 rs2).2 (analyzeWorkflowTriggersH h2 rs2).1
    ∧ (∀ d, firstProfile h rs = some d → d ≠ [] →
        ∀ k, k ≠ "is_high_frequency_trigger" →
          dGet (hRead (analyzeWorkflowTriggersH h rs).2
            (analyzeWorkflowTriggersH h rs).1) k = dGet d k)
    ∧ ((firstProfile h rs = none ∨ firstProfile h rs = some []) →
        ∀ k, k ≠ "is_high_frequency_trigger" →
          dGet (hRead (analyzeWorkflowTriggersH h rs).2
            (analyzeWorkflowTriggersH h rs).1) k
            = dGet (analyzerFallbackDict rs) k) := by
  rw [triggers_read, triggers_read]
  refine ⟨triggerDictResult_determined h h2 rs rs2 hne hfirst hevents, ?_, ?_⟩
  · intro d hd hdne k hk
    cases rs with
    | nil => exact absurd rfl hne
    | cons f t =>
      cases hta : f.trigger_analysis with
      | none => simp [firstProfile, hta] at hd
      | some a =>
        have hr : hRead h a = d := by
          simpa [firstProfile, hta] using hd
        have hemp : d.isEmpty = false := by
          cases d with
          | nil => exact absurd rfl hdne
          | cons _ _ => rfl
        simp only [triggerDictResult, hta, hr, hemp, Bool.not_false, if_true]
        exact dGet_dSet_ne d _ k _ hk
  · intro hc k hk
    cases rs with
    | nil => exact absurd rfl hne
    | cons f t =>
      cases hta : f.trigger_analysis with
      | none =>
        simp only [triggerDictResult, hta]
        exact dGet_dSet_ne _ _ k _ hk
      | some a =>
        have hr : hRead h a = [] := by
          rcases hc with hc | hc
          · simp [firstProfile, hta] at hc
          · simpa [firstProfile, hta] using hc
        simp only [triggerDictResult, hta, hr, List.isEmpty_nil, Bool.not_true,
          Bool.false_eq_true, if_false]
        exact dGet_dSet_ne _ _ k _ hk

/-- **C10 witness**: the theorem applied to the concrete groups
`[attachedRun, laterRun]` and `[attachedRun, laterRunNoProfile]` on
`heap1` — identical first-run profile and events, but different
attached profiles on the second run. -/
theorem C10_first_run_profile_witness :
    hRead (analyzeWorkflowTriggersH heap1 [attachedRun, laterRun]).2
        (analyzeWorkflowTriggersH heap1 [attachedRun, laterRun]).1
      = hRead (analyzeWorkflowTriggersH heap1 [attachedRun, laterRunNoProfile]).2
          (analyzeWorkflowTriggersH heap1 [attachedRun, laterRunNoProfile]).1
    ∧ (∀ d, firstProfile heap1 [attachedRun, laterRun] = some d → d ≠ [] →
        ∀ k, k ≠ "is_high_frequency_trigger" →
          dGet (hRead (analyzeWorkflowTriggersH heap1 [attachedRun, laterRun]).2
            (analyzeWorkflowTriggersH heap1 [attachedRun, laterRun]).1) k = dGet d k)
    ∧ ((firstProfile heap1 [attachedRun, laterRun] = none
        ∨ firstProfile heap1 [attachedRun, laterRun] = some []) →
        ∀ k, k ≠ "is_high_frequency_trigger" →
          dGet (hRead (analyzeWorkflowTriggersH heap1 [attachedRun, laterRun]).2
            (analyzeWorkflowTriggersH heap1 [attachedRun, laterRun]).1) k
            = dGet (analyzerFallbackDict [attachedRun, laterRun]) k) :=
  C10_first_run_profile heap1 heap1 [attachedRun, laterRun]
    [attachedRun, laterRunNoProfile] (List.cons_ne_nil _ _) rfl rfl

end GWA
